import Mathlib

/-!
Shallow embedding of the divide-and-conquer extraction core of gpu_specter
(src/py/gpu_specter/core.py and src/py/gpu_specter/spex.py), together with
theorems settling the specification claims about it.

Conventions used throughout:
* Python integers are embedded as `Int`; Python floor division and modulus
  are embedded as `Int.fdiv` / `Int.fmod` (identical semantics for the sign
  combinations reachable here).
* numpy float arrays are embedded as total functions into `ℚ`; array cells
  that a routine never writes keep their initialisation value.
* APIs that can raise a Python exception are embedded in `Except String`,
  the error string naming the exception that the source would raise.
-/

namespace GpuSpecter

/-- Python `range(start, stop, step)` for a positive `step`: the elements
`start + i*step` for `0 ≤ i < ceil((stop-start)/step)`. -/
def pyRange (start stop step : Int) : List Int :=
  (List.range (((stop - start + step - 1).fdiv step).toNat)).map
    (fun i : Nat => start + step * (i : Int))

/-- A Python slice object `np.s_[start:stop]` (unit step). -/
structure Slice where
  start : Int
  stop : Int
deriving DecidableEq, Repr

/-- The `Patch` convenience data wrapper of core.py (class Patch).  The
`xyslice` field is the pixel-space bounding box set later by the dispatcher
(`None` when the patch is entirely off the image), carried here as an
`Option` field. -/
structure Patch where
  ispec : Int
  iwave : Int
  nspectra_per_patch : Int
  nwavestep : Int
  wavepad : Int
  bspecmin : Int
  specslice : Slice
  waveslice : Slice
  keepslice : Slice
  nwave : Int
  bundlesize : Int
  ndiag : Int
  xyslice : Option (Slice × Slice)
deriving DecidableEq, Repr

/-- `Patch.__init__` (core.py lines 24-74): stores all arguments and derives
`specslice`, `waveslice` and `keepslice`; `xyslice` starts out as `None`. -/
def mkPatch (ispec iwave bspecmin nspectra_per_patch nwavestep wavepad nwave
    bundlesize ndiag : Int) : Patch :=
  { ispec := ispec
    iwave := iwave
    nspectra_per_patch := nspectra_per_patch
    nwavestep := nwavestep
    wavepad := wavepad
    bspecmin := bspecmin
    specslice := ⟨ispec - bspecmin, ispec - bspecmin + nspectra_per_patch⟩
    waveslice := ⟨iwave - wavepad, iwave - wavepad + nwavestep⟩
    keepslice := ⟨0, min nwavestep (nwave - (iwave - wavepad))⟩
    nwave := nwave
    bundlesize := bundlesize
    ndiag := ndiag
    xyslice := none }

/-- The patch partitioner of `extract_bundle` (core.py lines 226-235): one
list of patches per sub-bundle, tiling the wavelength range in steps of
`nwavestep` starting at `wavepad`. -/
def extract_bundle_subbundles (bspecmin bundlesize nsubbundles nwave nwavestep
    wavepad ndiag : Int) : List (List Patch) :=
  let nspectra_per_patch := bundlesize.fdiv nsubbundles
  (pyRange bspecmin (bspecmin + bundlesize) nspectra_per_patch).map (fun ispec =>
    (pyRange wavepad (wavepad + nwave) nwavestep).map (fun iwave =>
      mkPatch ispec iwave bspecmin nspectra_per_patch nwavestep wavepad nwave
        bundlesize ndiag))

/-- The flattened patch list (core.py line 281:
`[patch for subbundle in subbundles for patch in subbundle]`). -/
def extract_bundle_patches (bspecmin bundlesize nsubbundles nwave nwavestep
    wavepad ndiag : Int) : List Patch :=
  (extract_bundle_subbundles bspecmin bundlesize nsubbundles nwave nwavestep
    wavepad ndiag).flatten

/-- The cell `(r, c)` of the bundle output array lies in the region
`specslice × (waveslice restricted to the keepslice length)` of patch `p`. -/
def coversCell (p : Patch) (r c : Nat) : Prop :=
  p.specslice.start ≤ (r : Int) ∧ (r : Int) < p.specslice.stop ∧
    p.waveslice.start ≤ (c : Int) ∧
    (c : Int) < p.waveslice.start + p.keepslice.stop

instance (p : Patch) (r c : Nat) : Decidable (coversCell p r c) := by
  unfold coversCell; infer_instance

/-! ### Bundle assembly (`assemble_bundle_patches`, core.py lines 77-155) -/

/-- A Python float value: finite (embedded as `ℚ`) or non-finite.  Only the
per-patch model image can carry non-finite values here; everywhere else the
source arithmetic stays finite. -/
inductive PyF where
  | fin (q : ℚ)
  | nan
  | posInf
  | negInf
deriving DecidableEq, Repr

/-- The finite value of a `PyF` (non-finite values are never read: the
assembler skips any model image containing them). -/
def PyF.toQ : PyF → ℚ
  | .fin q => q
  | _ => 0

/-- Whether a `PyF` is finite (`np.isfinite`). -/
def PyF.isFinite : PyF → Bool
  | .fin _ => true
  | _ => false

/-- A per-patch model image: a dense `ny × nx` pixel array. -/
structure ModelImage where
  ny : Nat
  nx : Nat
  data : Nat → Nat → PyF

/-- `patchmodel.any()`: some cell is truthy (non-zero; `nan` and the
infinities are non-zero). -/
def ModelImage.anyNonzero (m : ModelImage) : Bool :=
  (List.range m.ny).any (fun i =>
    (List.range m.nx).any (fun j => decide (m.data i j ≠ PyF.fin 0)))

/-- `np.all(np.isfinite(patchmodel))`. -/
def ModelImage.allFinite (m : ModelImage) : Bool :=
  (List.range m.ny).all (fun i =>
    (List.range m.nx).all (fun j => (m.data i j).isFinite))

/-- A per-patch extraction result, as consumed by the assembler: the dense
arrays are total functions on patch-local indices (row, wavelength column);
`Rdiags` has a middle diagonal index. -/
structure PatchResult where
  flux : Nat → Nat → ℚ
  ivar : Nat → Nat → ℚ
  Rdiags : Nat → Nat → Nat → ℚ
  pixmask_fraction : Nat → Nat → ℚ
  chi2pix : Nat → Nat → ℚ
  modelimage : Option ModelImage

/-- The skip test for a patch's model-image contribution (core.py lines
142-147): skipped when absent, entirely zero, or containing a non-finite
value.  Python's `or` short-circuits, so a `None` model is never probed. -/
def skipPatchmodel (r : PatchResult) : Bool :=
  match r.modelimage with
  | none => true
  | some m => !m.anyNonzero || !m.allFinite

/-- First row of the dense-array region written for a patch: `specslice`
clipped at 0 (numpy clips slice bounds to the array's shape; the negative
wrap-around convention is never exercised because partitioner slices are
non-negative). -/
def rowLo (p : Patch) : Int := max p.specslice.start 0

/-- One past the last written row: `specslice.stop` clipped at the bundle
size `B`. -/
def rowHi (p : Patch) (B : Int) : Int := min p.specslice.stop B

/-- First wavelength column written for a patch: `waveslice` clipped at 0. -/
def colLo (p : Patch) : Int := max p.waveslice.start 0

/-- One past the last written column: `waveslice.stop` clipped at the array
width `W` and limited to the `keepslice` length of the right-hand side
`fx[:, patch.keepslice]` (for partitioner patches the two coincide, which is
what makes the numpy slice-assignment shapes match). -/
def colHi (p : Patch) (W : Int) : Int :=
  min (min p.waveslice.stop (p.waveslice.start + p.keepslice.stop)) W

/-- The cell `(r, c)` of a `B × W` bundle array is written by the
slice-assignment for patch `p`. -/
def inRect (p : Patch) (B W : Int) (r c : Nat) : Prop :=
  rowLo p ≤ (r : Int) ∧ (r : Int) < rowHi p B ∧
    colLo p ≤ (c : Int) ∧ (c : Int) < colHi p W

instance (p : Patch) (B W : Int) (r c : Nat) : Decidable (inRect p B W r c) := by
  unfold inRect
  infer_instance

/-- numpy slice-assignment `A[p.specslice, p.waveslice] = src[:, p.keepslice]`
into a `B × W` array, as a pointwise update. -/
def write2d (A : Nat → Nat → ℚ) (p : Patch) (src : Nat → Nat → ℚ)
    (B W : Int) : Nat → Nat → ℚ :=
  fun r c =>
    if inRect p B W r c then
      src ((r : Int) - p.specslice.start).toNat
        ((c : Int) - p.waveslice.start).toNat
    else A r c

/-- numpy slice-assignment
`A[p.specslice, :, p.waveslice] = src[:, :, p.keepslice]` (the resolution
diagonals; the middle axis is taken whole). -/
def write3d (A : Nat → Nat → Nat → ℚ) (p : Patch) (src : Nat → Nat → Nat → ℚ)
    (B W : Int) : Nat → Nat → Nat → ℚ :=
  fun r d c =>
    if inRect p B W r c then
      src ((r : Int) - p.specslice.start).toNat d
        ((c : Int) - p.waveslice.start).toNat
    else A r d c

/-- `modelimage[ymin:ymin+patchny, xmin:xmin+patchnx] += patchmodel`: add the
patch model into the shared model image at offset `(ymin, xmin)`. -/
def accumModel (M : Nat → Nat → ℚ) (ymin xmin : Int) (pm : ModelImage) :
    Nat → Nat → ℚ :=
  fun i j =>
    if ymin ≤ (i : Int) ∧ (i : Int) < ymin + pm.ny ∧
        xmin ≤ (j : Int) ∧ (j : Int) < xmin + pm.nx then
      M i j + (pm.data ((i : Int) - ymin).toNat ((j : Int) - xmin).toNat).toQ
    else M i j

/-- The mutable state of the assembly loop: the five dense bundle arrays and
the shared model image. -/
@[ext]
structure BState where
  specflux : Nat → Nat → ℚ
  specivar : Nat → Nat → ℚ
  Rdiags : Nat → Nat → Nat → ℚ
  pixmask_fraction : Nat → Nat → ℚ
  chi2pix : Nat → Nat → ℚ
  modelimage : Nat → Nat → ℚ

/-- The zero-initialised assembly state (`xp.zeros(...)`). -/
def initBState : BState :=
  { specflux := fun _ _ => 0
    specivar := fun _ _ => 0
    Rdiags := fun _ _ _ => 0
    pixmask_fraction := fun _ _ => 0
    chi2pix := fun _ _ => 0
    modelimage := fun _ _ => 0 }

/-- One step of the bounding-box scan (core.py lines 111-117): running
`(ystart, ystop, xstart, xstop)`.  The `float('inf')` initialisation is
embedded as `none` (no covered patch seen yet); a covered patch widens the
box by `min`/`max`. -/
def bbstep (s : Option (Int × Int × Int × Int)) (p : Patch) :
    Option (Int × Int × Int × Int) :=
  match p.xyslice with
  | none => s
  | some xy =>
    match s with
    | none => some (xy.1.start, xy.1.stop, xy.2.start, xy.2.stop)
    | some (a, b, c, d) =>
      some (min a xy.1.start, max b xy.1.stop, min c xy.2.start,
        max d xy.2.stop)

/-- The bounding-box scan over all patches; `none` means no patch had pixel
coverage, i.e. the Python bounds are still infinite. -/
def bboxFold (ps : List Patch) : Option (Int × Int × Int × Int) :=
  ps.foldl bbstep none

/-- The body of the assembly loop (core.py lines 123-153) for one
`(patch, result)` pair: a patch with `xyslice = None` is skipped entirely
(`continue` at line 132 comes before the dense-array writes); otherwise the
dense arrays are written and the model image accumulated unless the skip
test fires. -/
def applyPatch (B W ystart xstart : Int) (s : BState)
    (pr : Patch × PatchResult) : BState :=
  match pr.1.xyslice with
  | none => s
  | some xy =>
    let p := pr.1
    let r := pr.2
    let s1 : BState :=
      { specflux := write2d s.specflux p r.flux B W
        specivar := write2d s.specivar p r.ivar B W
        Rdiags := write3d s.Rdiags p r.Rdiags B W
        pixmask_fraction := write2d s.pixmask_fraction p r.pixmask_fraction B W
        chi2pix := write2d s.chi2pix p r.chi2pix B W
        modelimage := s.modelimage }
    if skipPatchmodel r then s1
    else
      match r.modelimage with
      | none => s1
      | some m =>
        { s1 with
          modelimage :=
            accumModel s1.modelimage (xy.1.start - ystart)
              (xy.2.start - xstart) m }

/-- The assembled bundle output: the dense arrays, the stitched model image
and the union bounding box `np.s_[ystart:ystop, xstart:xstop]`. -/
structure BundleOut where
  arrays : BState
  ystart : Int
  ystop : Int
  xstart : Int
  xstop : Int

/-- `assemble_bundle_patches` after the flattening of the per-rank lists
(core.py lines 93-155).  Python exceptions are embedded as `.error`:
indexing the empty list raises `IndexError`; allocating an array with a
negative dimension raises `ValueError`; when no patch has pixel coverage the
extents are still `float('inf')` arithmetic and `xp.zeros((ny, nx))` fails
to convert them (`OverflowError`). -/
def assembleJoin (allresults : List (Patch × PatchResult)) :
    Except String BundleOut :=
  match allresults with
  | [] => .error "IndexError: list index out of range"
  | (patch0, _) :: _ =>
    let nwave := patch0.nwave
    let bundlesize := patch0.bundlesize
    let ndiag := patch0.ndiag
    if bundlesize < 0 ∨ nwave < 0 ∨ 2 * ndiag + 1 < 0 then
      .error "ValueError: negative dimensions are not allowed"
    else
      match bboxFold (allresults.map Prod.fst) with
      | none => .error "OverflowError: cannot convert float infinity to integer"
      | some (ystart, ystop, xstart, xstop) =>
        if ystop - ystart < 0 ∨ xstop - xstart < 0 then
          .error "ValueError: negative dimensions are not allowed"
        else
          .ok
            { arrays :=
                allresults.foldl (applyPatch bundlesize nwave ystart xstart)
                  initBState
              ystart := ystart
              ystop := ystop
              xstart := xstart
              xstop := xstop }

/-- `assemble_bundle_patches(rankresults)`: flatten the per-rank result
lists (core.py lines 89-91) and assemble. -/
def assemble_bundle_patches (rankresults : List (List (Patch × PatchResult))) :
    Except String BundleOut :=
  assembleJoin rankresults.flatten

/-! ### Topology planning (`decompose_comm`, core.py lines 392-445) -/

/-- The member ranks of the communicator obtained from `comm.Split(color,
key)` as seen by a rank whose own color is `mycolor`, in a size-`size`
world: all ranks with the same color.  For both splits in `decompose_comm`
the key ordering coincides with the natural rank order, so the members are
listed in rank order. -/
def commSplit (size : Nat) (color : Nat → Nat) (mycolor : Nat) : List Nat :=
  (List.range size).filter (fun r => color r = mycolor)

/-- The result of `decompose_comm`: the frame-level and bundle-level
communicators (each `none` when absent, otherwise the list of member ranks),
this rank's bundle-group id (`bundle_start`), the stride between successive
bundle-group ids (`bundle_step`), and the accelerator device bound
(`device_id`, `none` on the CPU path). -/
structure Decomp where
  frame_comm : Option (List Nat)
  bundle_comm : Option (List Nat)
  bundle_start : Nat
  bundle_step : Nat
  device_id : Option Nat
deriving DecidableEq, Repr

/-- `decompose_comm(comm, gpu, ranks_per_bundle)` (core.py lines 392-445).
The MPI communicator is embedded as `none` (Python `None`) or
`some (size, rank)`; the available accelerator count
(`cp.cuda.runtime.getDeviceCount()`) is the `deviceCountAvail` environment
parameter.  Python exceptions (`ZeroDivisionError` from `divmod`, the
`AssertionError` of the divisibility assert, `AttributeError` from calling
`Split` on `None`) are embedded as `.error`. -/
def decompose_comm (comm : Option (Nat × Nat)) (gpu : Bool)
    (deviceCountAvail : Nat) (ranks_per_bundle : Option Nat) :
    Except String Decomp :=
  let size := match comm with | none => 1 | some sr => sr.1
  let rank := match comm with | none => 0 | some sr => sr.2
  if gpu then
    let device_count := min size deviceCountAvail
    if device_count = 0 then
      .error "ZeroDivisionError: integer division or modulo by zero"
    else
      let device_size := size / device_count
      let remainder := size % device_count
      if remainder ≠ 0 then
        .error "AssertionError: Number of MPI ranks must be divisible by number of GPUs"
      else
        let device_id := rank / device_size
        let bundle_size :=
          match ranks_per_bundle with
          | none => device_size
          | some rpb => rpb
        if bundle_size = 0 then
          .error "ZeroDivisionError: integer division or modulo by zero"
        else
          let bundle_start := rank / bundle_size
          let bundle_rank := rank % bundle_size
          let bundle_step := (size - 1) / bundle_size + 1
          if 1 < bundle_step then
            if 1 < bundle_size then
              match comm with
              | none => .error "AttributeError: 'NoneType' object has no attribute 'Split'"
              | some _ =>
                .ok
                  { frame_comm :=
                      some (commSplit size (fun r => r % bundle_size)
                        bundle_rank)
                    bundle_comm :=
                      some (commSplit size (fun r => r / bundle_size)
                        bundle_start)
                    bundle_start := bundle_start
                    bundle_step := bundle_step
                    device_id := some device_id }
            else
              .ok
                { frame_comm := comm.map (fun sr => List.range sr.1)
                  bundle_comm := none
                  bundle_start := bundle_start
                  bundle_step := bundle_step
                  device_id := some device_id }
          else
            .ok
              { frame_comm := none
                bundle_comm := comm.map (fun sr => List.range sr.1)
                bundle_start := bundle_start
                bundle_step := bundle_step
                device_id := some device_id }
  else
    .ok
      { frame_comm := none
        bundle_comm := comm.map (fun sr => List.range sr.1)
        bundle_start := 0
        bundle_step := 1
        device_id := none }

/-! ### Input-option checking (`spex.py` lines 58-103) -/

/-- The command-line options consulted by `check_input_options`. -/
structure Args where
  bundlesize : Int
  nsubbundles : Int
  nspec : Int
  specmin : Int
  gpu : Bool
  mpi : Bool
deriving DecidableEq, Repr

/-- The accelerator environment probed by the gpu branch of
`check_input_options`: whether `import cupy` succeeds, whether
`cp.is_available()`, and `cp.cuda.runtime.getDeviceCount()`. -/
structure GpuEnv where
  cupy_importable : Bool
  gpu_available : Bool
  device_count : Nat
deriving DecidableEq, Repr

/-- `check_input_options(args)` (spex.py lines 58-88): returns
`(ok, message)`.  Python `%` on the positive operands used here agrees with
`Int.fmod`. -/
def check_input_options (args : Args) (env : GpuEnv) : Bool × String :=
  if args.bundlesize.fmod args.nsubbundles ≠ 0 then
    (false, "bundlesize (" ++ toString args.bundlesize ++
      ") must be evenly divisible by nsubbundles (" ++
      toString args.nsubbundles ++ ")")
  else if args.nspec.fmod args.bundlesize ≠ 0 then
    (false, "nspec (" ++ toString args.nspec ++
      ") must be evenly divisible by bundlesize (" ++
      toString args.bundlesize ++ ")")
  else if args.specmin.fmod args.bundlesize ≠ 0 then
    (false, "specmin (" ++ toString args.specmin ++
      ") must begin at a bundle boundary")
  else if args.gpu then
    if !env.cupy_importable then (false, "cannot import module cupy")
    else if !env.gpu_available then (false, "gpu is not available")
    else if 1 < env.device_count ∧ !args.mpi then
      (false, "mpi is required to run with multiple gpu devices")
    else (true, "OK")
  else (true, "OK")

/-- The preflight step of `main_gpu_specter` (spex.py lines 99-103): if the
checks fail, a `ValueError` carrying the message is raised before any MPI
communicator is touched and before any extraction starts; otherwise the run
proceeds. -/
def main_gpu_specter_preflight (args : Args) (env : GpuEnv) :
    Except String Unit :=
  let okmsg := check_input_options args env
  if okmsg.1 then .ok () else .error okmsg.2

/-! ### Frame finalisation (`extract_frame`, core.py lines 633-643) -/

/-- `np.gradient` of the 1D wavelength grid `wave` of length `n`: one-sided
differences at the ends, central differences inside.  (numpy requires
`n ≥ 2`; the theorems below only use it in that regime.) -/
def npGradient (wave : Nat → ℚ) (n : Nat) : Nat → ℚ :=
  fun j =>
    if j = 0 then wave 1 - wave 0
    else if j = n - 1 then wave (n - 1) - wave (n - 2)
    else (wave (j + 1) - wave (j - 1)) / 2

/-- The finalised frame arrays: flux density, scaled inverse variance, and
the derived bad-pixel mask. -/
structure FrameOut where
  specflux : Nat → Nat → ℚ
  specivar : Nat → Nat → ℚ
  specmask : Nat → Nat → Int

/-- The unit-conversion step of `extract_frame` (core.py lines 633-643):
`specflux /= dwave`, `specivar *= dwave**2`,
`specmask = (specivar == 0).astype(int)` with `dwave = np.gradient(wave)`. -/
def extract_frame_finalize (specflux specivar : Nat → Nat → ℚ)
    (wave : Nat → ℚ) (nwave : Nat) : FrameOut :=
  let dwave := npGradient wave nwave
  { specflux := fun i j => specflux i j / dwave j
    specivar := fun i j => specivar i j * dwave j ^ 2
    specmask := fun i j =>
      if specivar i j * dwave j ^ 2 = 0 then 1 else 0 }

/-! ### Disjointness of written regions, and concrete sample data -/

/-- The dense-array regions written for two patches do not intersect: their
row ranges or their column ranges are disjoint (stated on interval
endpoints, so it is decidable). -/
def denseDisjoint (B W : Int) (p q : Patch) : Prop :=
  min (rowHi p B) (rowHi q B) ≤ max (rowLo p) (rowLo q) ∨
    min (colHi p W) (colHi q W) ≤ max (colLo p) (colLo q)

instance (B W : Int) (p q : Patch) : Decidable (denseDisjoint B W p q) := by
  unfold denseDisjoint
  infer_instance

/-- Two `(patch, result)` pairs never write the same dense-array cell:
either one of them is off the image (writes nothing) or their written
regions are disjoint. -/
def noWriteOverlap (B W : Int) (x y : Patch × PatchResult) : Prop :=
  x.1.xyslice = none ∨ y.1.xyslice = none ∨ denseDisjoint B W x.1 y.1

instance (B W : Int) (x y : Patch × PatchResult) :
    Decidable (noWriteOverlap B W x y) := by
  unfold noWriteOverlap
  infer_instance

/-- Replace a result's model image by `None`, keeping the dense arrays. -/
def dropModel (r : PatchResult) : PatchResult :=
  { r with modelimage := none }

/-- A per-patch result whose arrays are constant, with no model image. -/
def constResult (v : ℚ) : PatchResult :=
  { flux := fun _ _ => v
    ivar := fun _ _ => v
    Rdiags := fun _ _ _ => v
    pixmask_fraction := fun _ _ => v
    chi2pix := fun _ _ => v
    modelimage := none }

/-- A 2×2 all-zero model image. -/
def zeroModel : ModelImage :=
  { ny := 2, nx := 2, data := fun _ _ => PyF.fin 0 }

/-- An off-image patch (bounding box `None`): rows 5-9 of a 25-spectra
bundle. -/
def offPatch : Patch := mkPatch 5 10 0 5 50 10 100 25 7

/-- An on-image patch covering rows 0-4 of the same bundle, resolved with a
2×2 pixel bounding box. -/
def onPatch : Patch :=
  { mkPatch 0 10 0 5 50 10 100 25 7 with
    xyslice := some (⟨0, 2⟩, ⟨0, 2⟩) }

/-- A second on-image patch, rows 5-9, with an overlapping pixel box. -/
def onPatch2 : Patch :=
  { mkPatch 5 10 0 5 50 10 100 25 7 with
    xyslice := some (⟨1, 3⟩, ⟨1, 3⟩) }

/-! ### Theorems -/

/-- Helper: `Int.fdiv` on two natural-number casts is the natural division. -/
theorem fdiv_natCast (m n : Nat) : (m : Int).fdiv (n : Int) = ((m / n : Nat) : Int) :=
  (Int.ofNat_fdiv m n).symm

/-- Helper: `pyRange` from `a` to `a + B` with positive step `s` is the list
of `a + s*i` for `i < ceil(B / s)`. -/
theorem pyRange_natCast (a : Int) (B s : Nat) (hs : 0 < s) :
    pyRange a (a + (B : Int)) (s : Int) =
      (List.range ((B + s - 1) / s)).map (fun i : Nat => a + (s : Int) * i) := by
  unfold pyRange
  have h1 : a + (B : Int) - a + (s : Int) - 1 = ((B + s - 1 : Nat) : Int) := by
    omega
  rw [h1, fdiv_natCast, Int.toNat_natCast]

/-- Helper: a `countP` over `List.range M` of a predicate holding exactly at
`m0 < M` equals one. -/
theorem countP_range_unique (M m0 : Nat) (p : Nat → Bool) (hm : m0 < M)
    (h : ∀ m, p m = true ↔ m = m0) : (List.range M).countP p = 1 := by
  induction M with
  | zero => omega
  | succ n ih =>
    rw [List.range_succ, List.countP_append]
    by_cases hM : m0 = n
    · have hz : (List.range n).countP p = 0 := by
        rw [List.countP_eq_zero]
        intro a ha
        rw [List.mem_range] at ha
        intro hpa
        rw [h] at hpa
        omega
      have hn : p n = true := (h n).mpr hM.symm
      simp [hz, hn]
    · have h1 : (List.range n).countP p = 1 := ih (by omega)
      have hn : p n = false := by
        rw [Bool.eq_false_iff]
        intro hpa
        rw [h] at hpa
        exact hM hpa.symm
      simp [h1, hn]

/-- Helper: summing `g` over `List.range n` when `g` is `1` at `k0 < n` and
`0` elsewhere gives one. -/
theorem sum_map_range_unique (n k0 : Nat) (g : Nat → Nat) (hk : k0 < n)
    (h1 : g k0 = 1) (h0 : ∀ k, k ≠ k0 → g k = 0) :
    ((List.range n).map g).sum = 1 := by
  induction n with
  | zero => omega
  | succ n ih =>
    rw [List.range_succ, List.map_append, List.sum_append]
    by_cases hn : k0 = n
    · have hz : ((List.range n).map g).sum = 0 := by
        apply List.sum_eq_zero
        intro x hx
        rw [List.mem_map] at hx
        obtain ⟨k, hk', rfl⟩ := hx
        rw [List.mem_range] at hk'
        exact h0 k (by omega)
      subst hn
      simp [hz, h1]
    · have hsum : ((List.range n).map g).sum = 1 := ih (by omega)
      simp [hsum, h0 n (fun hh => hn hh.symm)]

/-- Helper: `k` is the block index of `r` for block width `w > 0` iff
`w*k ≤ r < w*k + w`. -/
theorem block_index_iff (w r k : Nat) (hw : 0 < w) :
    (w * k ≤ r ∧ r < w * k + w) ↔ k = r / w := by
  constructor
  · rintro ⟨hlo, hhi⟩
    have := Nat.div_eq_of_lt_le (m := r) (n := w) (k := k)
      (by rw [Nat.mul_comm]; exact hlo)
      (by rw [Nat.add_mul, Nat.one_mul, Nat.mul_comm]; omega)
    omega
  · rintro rfl
    refine ⟨Nat.mul_div_le r w, ?_⟩
    have h2 := Nat.div_add_mod r w
    have h3 := Nat.mod_lt r hw
    omega

/-- Helper: the region of the partitioner patch with sub-bundle index `k`
and wavelength-tile index `m` is exactly the block
`[w*k, w*k + w) × [s*m, min (s*m + s) W)` of the output array. -/
theorem coversCell_partition_iff (bspecmin wavepad ndiag : Int)
    (w s W bsz : Nat) (k m r c : Nat) (hc : c < W) :
    coversCell (mkPatch (bspecmin + (w : Int) * k) (wavepad + (s : Int) * m)
      bspecmin (w : Int) (s : Int) wavepad (W : Int) (bsz : Int) ndiag) r c ↔
      ((w * k ≤ r ∧ r < w * k + w) ∧ (s * m ≤ c ∧ c < s * m + s)) := by
  simp only [coversCell, mkPatch]
  omega

/-- C2: for a bundle produced by the patch partitioner with the bundle size
evenly divisible by the sub-bundle count, the regions
`specslice × (waveslice restricted to the keepslice length)` of the bundle's
patches cover each cell of the `bundlesize × nwave` output array exactly
once: no gaps and no overlaps. -/
theorem bundle_patches_tile_exactly_once (bspecmin wavepad ndiag : Int)
    (bundlesize nsubbundles nwavestep nwave : Nat)
    (hns : 0 < nsubbundles) (hdvd : nsubbundles ∣ bundlesize)
    (hstep : 0 < nwavestep) (r c : Nat) (hr : r < bundlesize) (hc : c < nwave) :
    ((extract_bundle_patches bspecmin (bundlesize : Int) (nsubbundles : Int)
        (nwave : Int) (nwavestep : Int) wavepad ndiag).countP
      (fun p => decide (coversCell p r c))) = 1 := by
  have hbpos : 0 < bundlesize := by omega
  have hb : bundlesize / nsubbundles * nsubbundles = bundlesize :=
    Nat.div_mul_cancel hdvd
  have hnspp : 0 < bundlesize / nsubbundles :=
    Nat.div_pos (Nat.le_of_dvd hbpos hdvd) hns
  have hrowlen : (bundlesize + bundlesize / nsubbundles - 1) /
      (bundlesize / nsubbundles) = nsubbundles := by
    have e1 : bundlesize + bundlesize / nsubbundles - 1 =
        (bundlesize / nsubbundles - 1) +
          (bundlesize / nsubbundles) * nsubbundles := by
      omega
    rw [e1, Nat.add_mul_div_left _ _ hnspp, Nat.div_eq_of_lt (by omega)]
    omega
  have hMmul : nwave ≤ nwavestep * ((nwave + nwavestep - 1) / nwavestep) := by
    have h2 := Nat.div_add_mod (nwave + nwavestep - 1) nwavestep
    have h3 := Nat.mod_lt (nwave + nwavestep - 1) hstep
    omega
  simp only [extract_bundle_patches, extract_bundle_subbundles]
  rw [fdiv_natCast,
    pyRange_natCast bspecmin bundlesize (bundlesize / nsubbundles) hnspp,
    pyRange_natCast wavepad nwave nwavestep hstep, hrowlen]
  simp only [List.countP_flatten, List.map_map, List.countP_map,
    Function.comp_def]
  refine sum_map_range_unique nsubbundles (r / (bundlesize / nsubbundles)) _
    ?_ ?_ ?_
  · -- the sub-bundle index of row r is in range
    rw [Nat.div_lt_iff_lt_mul hnspp,
      Nat.mul_comm nsubbundles (bundlesize / nsubbundles), hb]
    exact hr
  · -- that sub-bundle contributes exactly one covering patch
    refine countP_range_unique _ (c / nwavestep) _ ?_ ?_
    · rw [Nat.div_lt_iff_lt_mul hstep, Nat.mul_comm]
      omega
    · intro m
      rw [decide_eq_true_iff,
        coversCell_partition_iff bspecmin wavepad ndiag
          (bundlesize / nsubbundles) nwavestep nwave bundlesize _ _ _ _ hc]
      have hrow := (block_index_iff (bundlesize / nsubbundles) r
        (r / (bundlesize / nsubbundles)) hnspp).mpr rfl
      have hcol := block_index_iff nwavestep c m hstep
      constructor
      · rintro ⟨h1, h2⟩
        exact hcol.mp h2
      · rintro rfl
        exact ⟨hrow, hcol.mpr rfl⟩
  · -- every other sub-bundle contributes no covering patch
    intro k hk
    rw [List.countP_eq_zero]
    intro m hm hcov
    rw [decide_eq_true_iff,
      coversCell_partition_iff bspecmin wavepad ndiag
        (bundlesize / nsubbundles) nwavestep nwave bundlesize _ _ _ _ hc] at hcov
    exact hk ((block_index_iff (bundlesize / nsubbundles) r k hnspp).mp hcov.1)

/-- C6: `keepslice` of any constructed patch is `[0, k)` with
`k = min nwavestep (nwave - (iwave - wavepad))`: the shorter of the full
step and the wavelength bins remaining in the bundle. -/
theorem keepslice_is_min (ispec iwave bspecmin nspectra_per_patch nwavestep
    wavepad nwave bundlesize ndiag : Int) :
    (mkPatch ispec iwave bspecmin nspectra_per_patch nwavestep wavepad
        nwave bundlesize ndiag).keepslice.start = 0 ∧
      (mkPatch ispec iwave bspecmin nspectra_per_patch nwavestep wavepad
        nwave bundlesize ndiag).keepslice.stop =
        min nwavestep (nwave - (iwave - wavepad)) ∧
      (mkPatch ispec iwave bspecmin nspectra_per_patch nwavestep wavepad
        nwave bundlesize ndiag).keepslice.stop ≤ nwavestep ∧
      (mkPatch ispec iwave bspecmin nspectra_per_patch nwavestep wavepad
        nwave bundlesize ndiag).keepslice.stop ≤ nwave - (iwave - wavepad) ∧
      ((mkPatch ispec iwave bspecmin nspectra_per_patch nwavestep wavepad
          nwave bundlesize ndiag).keepslice.stop = nwavestep ∨
        (mkPatch ispec iwave bspecmin nspectra_per_patch nwavestep wavepad
          nwave bundlesize ndiag).keepslice.stop =
          nwave - (iwave - wavepad)) := by
  refine ⟨rfl, rfl, min_le_left _ _, min_le_right _ _, min_choice _ _⟩

/-- Helper: the bounding-box scan over patches none of which has pixel
coverage stays at its infinite initialisation. -/
theorem bboxFold_eq_none (ps : List Patch) (h : ∀ p ∈ ps, p.xyslice = none) :
    bboxFold ps = none := by
  unfold bboxFold
  induction ps with
  | nil => rfl
  | cons p ps ih =>
    rw [List.foldl_cons]
    have hp : bbstep none p = none := by
      unfold bbstep
      rw [h p (List.mem_cons_self p ps)]
    rw [hp]
    exact ih (fun q hq => h q (List.mem_cons_of_mem p hq))

/-- C3 (amended): if every patch of a non-empty bundle has bounding box
`None`, `assemble_bundle_patches` does not return normally: the pixel
extents are still the infinite initialisation values, so allocating the
model image raises (`OverflowError` when converting `float('inf')` to an
array dimension), even though the dense allocations were legal. -/
theorem assemble_all_offimage_raises
    (rankresults : List (List (Patch × PatchResult)))
    (p0 : Patch) (r0 : PatchResult) (rest : List (Patch × PatchResult))
    (hflat : rankresults.flatten = (p0, r0) :: rest)
    (hnone : ∀ pr ∈ rankresults.flatten, pr.1.xyslice = none)
    (hdims : ¬(p0.bundlesize < 0 ∨ p0.nwave < 0 ∨ 2 * p0.ndiag + 1 < 0)) :
    assemble_bundle_patches rankresults =
      .error "OverflowError: cannot convert float infinity to integer" := by
  unfold assemble_bundle_patches
  rw [hflat] at hnone ⊢
  have hbb : bboxFold (((p0, r0) :: rest).map Prod.fst) = none := by
    apply bboxFold_eq_none
    intro q hq
    rw [List.mem_map] at hq
    obtain ⟨pr, hpr, rfl⟩ := hq
    exact hnone pr hpr
  simp only [assembleJoin]
  rw [if_neg hdims, hbb]

/-- C3 counterexample: a bundle consisting of a single entirely off-image
patch makes `assemble_bundle_patches` raise instead of returning an empty
box and a zero-extent model image. -/
theorem assemble_all_offimage_concrete :
    assemble_bundle_patches [[(offPatch, constResult 1)]] =
      .error "OverflowError: cannot convert float infinity to integer" := rfl

/-- Witness for the amended C3 theorem at a concrete input. -/
theorem assemble_all_offimage_witness :
    assemble_bundle_patches [[(offPatch, constResult 1)]] =
      .error "OverflowError: cannot convert float infinity to integer" :=
  assemble_all_offimage_raises [[(offPatch, constResult 1)]] offPatch
    (constResult 1) [] rfl
    (by
      intro pr hpr
      simp only [List.flatten_cons, List.flatten_nil, List.append_nil,
        List.mem_singleton] at hpr
      rw [hpr]
      rfl)
    (by decide)

/-- Helper: the assembly loop body ignores a pair whose patch is off the
image (`continue` before the dense writes). -/
theorem applyPatch_offimage (B W y x : Int) (s : BState)
    (pr : Patch × PatchResult) (h : pr.1.xyslice = none) :
    applyPatch B W y x s pr = s := by
  unfold applyPatch
  rw [h]

/-- Helper: the flux array after one loop step. -/
theorem applyPatch_specflux (B W y x : Int) (s : BState)
    (pr : Patch × PatchResult) :
    (applyPatch B W y x s pr).specflux =
      match pr.1.xyslice with
      | none => s.specflux
      | some _ => write2d s.specflux pr.1 pr.2.flux B W := by
  unfold applyPatch
  cases pr.1.xyslice with
  | none => rfl
  | some xy =>
    dsimp only
    split
    · rfl
    · split <;> rfl

/-- Helper: the inverse-variance array after one loop step. -/
theorem applyPatch_specivar (B W y x : Int) (s : BState)
    (pr : Patch × PatchResult) :
    (applyPatch B W y x s pr).specivar =
      match pr.1.xyslice with
      | none => s.specivar
      | some _ => write2d s.specivar pr.1 pr.2.ivar B W := by
  unfold applyPatch
  cases pr.1.xyslice with
  | none => rfl
  | some xy =>
    dsimp only
    split
    · rfl
    · split <;> rfl

/-- Helper: the resolution-diagonal array after one loop step. -/
theorem applyPatch_Rdiags (B W y x : Int) (s : BState)
    (pr : Patch × PatchResult) :
    (applyPatch B W y x s pr).Rdiags =
      match pr.1.xyslice with
      | none => s.Rdiags
      | some _ => write3d s.Rdiags pr.1 pr.2.Rdiags B W := by
  unfold applyPatch
  cases pr.1.xyslice with
  | none => rfl
  | some xy =>
    dsimp only
    split
    · rfl
    · split <;> rfl

/-- Helper: the mask-fraction array after one loop step. -/
theorem applyPatch_pixmask (B W y x : Int) (s : BState)
    (pr : Patch × PatchResult) :
    (applyPatch B W y x s pr).pixmask_fraction =
      match pr.1.xyslice with
      | none => s.pixmask_fraction
      | some _ => write2d s.pixmask_fraction pr.1 pr.2.pixmask_fraction B W := by
  unfold applyPatch
  cases pr.1.xyslice with
  | none => rfl
  | some xy =>
    dsimp only
    split
    · rfl
    · split <;> rfl

/-- Helper: the chi2 array after one loop step. -/
theorem applyPatch_chi2pix (B W y x : Int) (s : BState)
    (pr : Patch × PatchResult) :
    (applyPatch B W y x s pr).chi2pix =
      match pr.1.xyslice with
      | none => s.chi2pix
      | some _ => write2d s.chi2pix pr.1 pr.2.chi2pix B W := by
  unfold applyPatch
  cases pr.1.xyslice with
  | none => rfl
  | some xy =>
    dsimp only
    split
    · rfl
    · split <;> rfl

/-- Helper: the model image after one loop step: accumulated only for a
covered patch with a present, not-skipped model. -/
theorem applyPatch_modelimage (B W y x : Int) (s : BState)
    (pr : Patch × PatchResult) :
    (applyPatch B W y x s pr).modelimage =
      match pr.1.xyslice, pr.2.modelimage with
      | some xy, some m =>
        if skipPatchmodel pr.2 then s.modelimage
        else accumModel s.modelimage (xy.1.start - y) (xy.2.start - x) m
      | _, _ => s.modelimage := by
  unfold applyPatch
  cases hxy : pr.1.xyslice with
  | none => cases pr.2.modelimage <;> rfl
  | some xy =>
    cases hm : pr.2.modelimage with
    | none =>
      dsimp only
      rw [hm]
      split <;> rfl
    | some m =>
      dsimp only
      rw [hm]
      split <;> rfl

/-- Helper: a dense-array cell written by no pair of the list keeps its
value through the assembly loop. -/
theorem foldl_apply_cell_untouched (B W y x : Int)
    (l : List (Patch × PatchResult)) (s : BState) (rr cc : Nat)
    (h : ∀ pr ∈ l, pr.1.xyslice = none ∨ ¬ inRect pr.1 B W rr cc) :
    (l.foldl (applyPatch B W y x) s).specflux rr cc = s.specflux rr cc ∧
      (l.foldl (applyPatch B W y x) s).specivar rr cc = s.specivar rr cc ∧
      (l.foldl (applyPatch B W y x) s).pixmask_fraction rr cc =
        s.pixmask_fraction rr cc ∧
      (l.foldl (applyPatch B W y x) s).chi2pix rr cc = s.chi2pix rr cc ∧
      ∀ d, (l.foldl (applyPatch B W y x) s).Rdiags rr d cc =
        s.Rdiags rr d cc := by
  induction l generalizing s with
  | nil => exact ⟨rfl, rfl, rfl, rfl, fun _ => rfl⟩
  | cons pr l ih =>
    rw [List.foldl_cons]
    have step :
        (applyPatch B W y x s pr).specflux rr cc = s.specflux rr cc ∧
          (applyPatch B W y x s pr).specivar rr cc = s.specivar rr cc ∧
          (applyPatch B W y x s pr).pixmask_fraction rr cc =
            s.pixmask_fraction rr cc ∧
          (applyPatch B W y x s pr).chi2pix rr cc = s.chi2pix rr cc ∧
          ∀ d, (applyPatch B W y x s pr).Rdiags rr d cc = s.Rdiags rr d cc := by
      rcases h pr (List.mem_cons_self pr l) with hn | hnr
      · rw [applyPatch_offimage _ _ _ _ _ _ hn]
        exact ⟨rfl, rfl, rfl, rfl, fun _ => rfl⟩
      · rw [applyPatch_specflux, applyPatch_specivar, applyPatch_pixmask,
          applyPatch_chi2pix]
        cases hxy : pr.1.xyslice with
        | none => exact ⟨rfl, rfl, rfl, rfl, by
            intro d
            rw [applyPatch_Rdiags, hxy]⟩
        | some xy =>
          refine ⟨?_, ?_, ?_, ?_, ?_⟩
          · simp only [write2d]
            rw [if_neg hnr]
          · simp only [write2d]
            rw [if_neg hnr]
          · simp only [write2d]
            rw [if_neg hnr]
          · simp only [write2d]
            rw [if_neg hnr]
          · intro d
            rw [applyPatch_Rdiags, hxy]
            simp only [write3d]
            rw [if_neg hnr]
    obtain ⟨e1, e2, e3, e4, e5⟩ :=
      ih (applyPatch B W y x s pr) (fun q hq => h q (List.mem_cons_of_mem pr hq))
    obtain ⟨f1, f2, f3, f4, f5⟩ := step
    exact ⟨e1.trans f1, e2.trans f2, e3.trans f3, e4.trans f4,
      fun d => (e5 d).trans (f5 d)⟩

/-- C1 (amended): a patch whose bounding box is `None` is skipped entirely
by the assembly loop, with no error and without being removed from the
list: its result arrays are never read (first conjunct: the assembled
output does not depend on them), and its declared dense-array slots keep
the zero initialisation unless some covered patch writes them (second
conjunct). -/
theorem offimage_patch_contributes_nothing :
    (∀ (l1 l2 : List (Patch × PatchResult)) (p : Patch) (r r' : PatchResult),
        p.xyslice = none →
        assembleJoin (l1 ++ (p, r) :: l2) =
          assembleJoin (l1 ++ (p, r') :: l2)) ∧
      (∀ (rss : List (List (Patch × PatchResult))) (p0 : Patch)
        (r0 : PatchResult) (rest : List (Patch × PatchResult))
        (out : BundleOut) (rr cc : Nat),
        rss.flatten = (p0, r0) :: rest →
        assemble_bundle_patches rss = .ok out →
        (∀ pr ∈ rss.flatten,
          pr.1.xyslice = none ∨ ¬ inRect pr.1 p0.bundlesize p0.nwave rr cc) →
        out.arrays.specflux rr cc = 0 ∧ out.arrays.specivar rr cc = 0 ∧
          out.arrays.pixmask_fraction rr cc = 0 ∧
          out.arrays.chi2pix rr cc = 0 ∧
          ∀ d, out.arrays.Rdiags rr d cc = 0) := by
  constructor
  · intro l1 l2 p r r' hp
    have ho : ∀ (B W y x : Int) (s : BState) (rr : PatchResult),
        applyPatch B W y x s (p, rr) = s := fun B W y x s rr =>
      applyPatch_offimage B W y x s (p, rr) hp
    have hfold : ∀ (L1 : List (Patch × PatchResult)) (B W y x : Int)
        (s : BState),
        (L1 ++ (p, r) :: l2).foldl (applyPatch B W y x) s =
          (L1 ++ (p, r') :: l2).foldl (applyPatch B W y x) s := by
      intro L1 B W y x s
      rw [List.foldl_append, List.foldl_append, List.foldl_cons,
        List.foldl_cons, ho, ho]
    cases l1 with
    | nil =>
      simp only [List.nil_append, assembleJoin]
      rw [show ((p, r) :: l2).map Prod.fst = ((p, r') :: l2).map Prod.fst
        from by simp]
      simp only [List.foldl_cons, ho]
    | cons a l1' =>
      obtain ⟨pa, ra⟩ := a
      simp only [List.cons_append, assembleJoin]
      rw [show ((pa, ra) :: (l1' ++ (p, r) :: l2)).map Prod.fst =
        ((pa, ra) :: (l1' ++ (p, r') :: l2)).map Prod.fst from by simp]
      simp only [List.foldl_cons]
      simp only [hfold]
  · intro rss p0 r0 rest out rr cc hflat hok hcell
    rw [hflat] at hcell
    unfold assemble_bundle_patches at hok
    rw [hflat] at hok
    simp only [assembleJoin] at hok
    by_cases hd : p0.bundlesize < 0 ∨ p0.nwave < 0 ∨ 2 * p0.ndiag + 1 < 0
    · rw [if_pos hd] at hok
      exact absurd hok (by simp)
    · rw [if_neg hd] at hok
      rcases hbbx : bboxFold (((p0, r0) :: rest).map Prod.fst) with _ | t
      · rw [hbbx] at hok
        exact absurd hok (by simp)
      · obtain ⟨a, b, c, d⟩ := t
        rw [hbbx] at hok
        dsimp only at hok
        by_cases he : b - a < 0 ∨ d - c < 0
        · rw [if_pos he] at hok
          exact absurd hok (by simp)
        · rw [if_neg he] at hok
          have hout := (Except.ok.injEq _ _).mp hok
          subst hout
          have hzero := foldl_apply_cell_untouched p0.bundlesize p0.nwave a c
            ((p0, r0) :: rest) initBState rr cc hcell
          exact hzero

/-- C1 counterexample: a bundle with one covered patch (rows 0-4) and one
off-image patch (rows 5-9) whose solver flux is constant 1; the assembled
flux in the off-image patch's slot is 0, not the solver value 1. -/
theorem offimage_patch_slot_not_written :
    (assemble_bundle_patches
        [[(onPatch, constResult 2), (offPatch, constResult 1)]]).toOption.map
      (fun b => b.arrays.specflux 5 0) = some 0 ∧
      (constResult 1).flux 0 0 = 1 ∧ (0 : ℚ) ≠ 1 := by
  refine ⟨rfl, rfl, by norm_num⟩

/-- Witness for the amended C1 theorem at a concrete input. -/
theorem offimage_patch_contributes_nothing_witness :
    assembleJoin [(onPatch, constResult 2), (offPatch, constResult 1)] =
      assembleJoin [(onPatch, constResult 2), (offPatch, constResult 7)] :=
  offimage_patch_contributes_nothing.1 [(onPatch, constResult 2)] []
    offPatch (constResult 1) (constResult 7) rfl

/-- Helper: a result whose model image is present and entirely zero is
skipped by the model-accumulation test. -/
theorem skipPatchmodel_of_allzero (r : PatchResult) (m : ModelImage)
    (hm : r.modelimage = some m) (hz : ∀ i j, m.data i j = PyF.fin 0) :
    skipPatchmodel r = true := by
  unfold skipPatchmodel
  rw [hm]
  dsimp only
  have hany : m.anyNonzero = false := by
    unfold ModelImage.anyNonzero
    rw [List.any_eq_false]
    intro i hi
    rw [Bool.not_eq_true, List.any_eq_false]
    intro j hj
    simp [hz i j]
  rw [hany]
  rfl

/-- Helper: one loop step with a skipped (or absent) model contribution
leaves the model image alone. -/
theorem applyPatch_model_skipped (B W y x : Int) (s : BState)
    (pr : Patch × PatchResult) (h : skipPatchmodel pr.2 = true) :
    (applyPatch B W y x s pr).modelimage = s.modelimage := by
  rw [applyPatch_modelimage]
  cases hxy : pr.1.xyslice with
  | none =>
    cases pr.2.modelimage <;> rfl
  | some xy =>
    cases hm : pr.2.modelimage with
    | none => rfl
    | some m =>
      dsimp only
      rw [if_pos h]

/-- Helper: if every pair's model contribution is skipped, the assembly loop
never touches the model image. -/
theorem foldl_model_unchanged (B W y x : Int)
    (l : List (Patch × PatchResult)) (s : BState)
    (h : ∀ pr ∈ l, skipPatchmodel pr.2 = true) :
    (l.foldl (applyPatch B W y x) s).modelimage = s.modelimage := by
  induction l generalizing s with
  | nil => rfl
  | cons pr l ih =>
    rw [List.foldl_cons,
      ih _ (fun q hq => h q (List.mem_cons_of_mem pr hq)),
      applyPatch_model_skipped _ _ _ _ _ _ (h pr (List.mem_cons_self pr l))]

/-- Helper: the bounding-box scan over covered patches with well-formed
slices, started from a well-formed box, yields a well-formed box. -/
theorem bboxFold_go_wf (rest : List Patch)
    (h : ∀ p ∈ rest, ∃ xy, p.xyslice = some xy ∧
      xy.1.start ≤ xy.1.stop ∧ xy.2.start ≤ xy.2.stop) :
    ∀ a b c d : Int, a ≤ b → c ≤ d →
      ∃ a' b' c' d',
        List.foldl bbstep (some (a, b, c, d)) rest = some (a', b', c', d') ∧
          a' ≤ b' ∧ c' ≤ d' := by
  induction rest with
  | nil =>
    intro a b c d h1 h2
    exact ⟨a, b, c, d, rfl, h1, h2⟩
  | cons p rest ih =>
    intro a b c d h1 h2
    obtain ⟨xy, hxy, hw1, hw2⟩ := h p (List.mem_cons_self p rest)
    rw [List.foldl_cons,
      show bbstep (some (a, b, c, d)) p =
        some (min a xy.1.start, max b xy.1.stop, min c xy.2.start,
          max d xy.2.stop) from by
        unfold bbstep
        rw [hxy]]
    exact ih (fun q hq => h q (List.mem_cons_of_mem p hq)) _ _ _ _
      (by omega) (by omega)

/-- Helper: the bounding-box scan over a non-empty list of covered patches
with well-formed slices yields a well-formed box. -/
theorem bboxFold_covered_wf (p : Patch) (rest : List Patch)
    (h : ∀ q ∈ p :: rest, ∃ xy, q.xyslice = some xy ∧
      xy.1.start ≤ xy.1.stop ∧ xy.2.start ≤ xy.2.stop) :
    ∃ a b c d, bboxFold (p :: rest) = some (a, b, c, d) ∧ a ≤ b ∧ c ≤ d := by
  obtain ⟨xy, hxy, hw1, hw2⟩ := h p (List.mem_cons_self p rest)
  unfold bboxFold
  rw [List.foldl_cons,
    show bbstep none p = some (xy.1.start, xy.1.stop, xy.2.start, xy.2.stop)
      from by
      unfold bbstep
      rw [hxy]]
  exact bboxFold_go_wf rest (fun q hq => h q (List.mem_cons_of_mem p hq))
    _ _ _ _ hw1 hw2

/-- Helper: one loop step is unchanged when a pair's model image is replaced
by `None`, provided the patch is off the image or its model contribution is
skipped anyway. -/
theorem applyPatch_dropModel (B W y x : Int) (s : BState) (p : Patch)
    (r : PatchResult) (h : p.xyslice = none ∨ skipPatchmodel r = true) :
    applyPatch B W y x s (p, r) = applyPatch B W y x s (p, dropModel r) := by
  rcases h with h | h
  · rw [applyPatch_offimage B W y x s (p, r) h,
      applyPatch_offimage B W y x s (p, dropModel r) h]
  · unfold applyPatch
    cases hxy : p.xyslice with
    | none => rfl
    | some xy =>
      dsimp only
      rw [if_pos h, if_pos (show skipPatchmodel (dropModel r) = true from rfl)]
      rfl

/-- C5: a patch with bounding box `None` never changes the model image, and
a patch whose model image is absent, entirely zero, or non-finite
contributes nothing to it (first conjunct: the assembled output is
unchanged when such a pair's model image is replaced by `None`); a bundle
of covered patches all of whose solver model images are all-zero assembles
without error to an all-zero bundle model image (second conjunct). -/
theorem model_image_skip_policy :
    (∀ (l1 l2 : List (Patch × PatchResult)) (p : Patch) (r : PatchResult),
        p.xyslice = none ∨ skipPatchmodel r = true →
        assembleJoin (l1 ++ (p, r) :: l2) =
          assembleJoin (l1 ++ (p, dropModel r) :: l2)) ∧
      (∀ (rss : List (List (Patch × PatchResult))) (p0 : Patch)
        (r0 : PatchResult) (rest : List (Patch × PatchResult)),
        rss.flatten = (p0, r0) :: rest →
        (∀ pr ∈ rss.flatten, ∃ xy, pr.1.xyslice = some xy ∧
          xy.1.start ≤ xy.1.stop ∧ xy.2.start ≤ xy.2.stop) →
        (∀ pr ∈ rss.flatten, ∃ m, pr.2.modelimage = some m ∧
          ∀ i j, m.data i j = PyF.fin 0) →
        ¬(p0.bundlesize < 0 ∨ p0.nwave < 0 ∨ 2 * p0.ndiag + 1 < 0) →
        ∃ out, assemble_bundle_patches rss = .ok out ∧
          ∀ i j, out.arrays.modelimage i j = 0) := by
  constructor
  · intro l1 l2 p r hp
    have hstep : ∀ (B W y x : Int) (s : BState),
        applyPatch B W y x s (p, r) = applyPatch B W y x s (p, dropModel r) :=
      fun B W y x s => applyPatch_dropModel B W y x s p r hp
    have hfold : ∀ (L1 : List (Patch × PatchResult)) (B W y x : Int)
        (s : BState),
        (L1 ++ (p, r) :: l2).foldl (applyPatch B W y x) s =
          (L1 ++ (p, dropModel r) :: l2).foldl (applyPatch B W y x) s := by
      intro L1 B W y x s
      rw [List.foldl_append, List.foldl_append, List.foldl_cons,
        List.foldl_cons, hstep]
    cases l1 with
    | nil =>
      simp only [List.nil_append, assembleJoin]
      rw [show ((p, r) :: l2).map Prod.fst =
        ((p, dropModel r) :: l2).map Prod.fst from by simp]
      simp only [List.foldl_cons, hstep]
    | cons a l1' =>
      obtain ⟨pa, ra⟩ := a
      simp only [List.cons_append, assembleJoin]
      rw [show ((pa, ra) :: (l1' ++ (p, r) :: l2)).map Prod.fst =
        ((pa, ra) :: (l1' ++ (p, dropModel r) :: l2)).map Prod.fst
        from by simp]
      simp only [List.foldl_cons]
      simp only [hfold]
  · intro rss p0 r0 rest hflat hcov hzero hdims
    unfold assemble_bundle_patches
    rw [hflat] at hcov hzero ⊢
    simp only [assembleJoin]
    rw [if_neg hdims]
    have hcov' : ∀ q ∈ (p0, r0).1 :: rest.map Prod.fst, ∃ xy,
        q.xyslice = some xy ∧ xy.1.start ≤ xy.1.stop ∧
          xy.2.start ≤ xy.2.stop := by
      intro q hq
      rw [show (p0, r0).1 :: rest.map Prod.fst =
        ((p0, r0) :: rest).map Prod.fst from rfl, List.mem_map] at hq
      obtain ⟨pr, hpr, rfl⟩ := hq
      exact hcov pr hpr
    obtain ⟨a, b, c, d, hbb, hab, hcd⟩ :=
      bboxFold_covered_wf (p0, r0).1 (rest.map Prod.fst) hcov'
    rw [List.map_cons, hbb]
    dsimp only
    rw [if_neg (by omega)]
    refine ⟨_, rfl, ?_⟩
    intro i j
    have hskip : ∀ pr ∈ (p0, r0) :: rest, skipPatchmodel pr.2 = true := by
      intro pr hpr
      obtain ⟨m, hm, hz⟩ := hzero pr hpr
      exact skipPatchmodel_of_allzero pr.2 m hm hz
    show (((p0, r0) :: rest).foldl
        (applyPatch p0.bundlesize p0.nwave a c) initBState).modelimage i j = 0
    rw [foldl_model_unchanged _ _ _ _ _ _ hskip]
    rfl

/-- Witness for the C5 theorem at a concrete input: an all-zero model image
contributes nothing. -/
theorem model_image_skip_policy_witness :
    assembleJoin [(onPatch, constResult 2),
        (onPatch2, { constResult 3 with modelimage := some zeroModel })] =
      assembleJoin [(onPatch, constResult 2),
        (onPatch2,
          dropModel { constResult 3 with modelimage := some zeroModel })] :=
  model_image_skip_policy.1 [(onPatch, constResult 2)] [] onPatch2
    { constResult 3 with modelimage := some zeroModel }
    (Or.inr (skipPatchmodel_of_allzero
      { constResult 3 with modelimage := some zeroModel } zeroModel rfl
      (fun _ _ => rfl)))

/-- Helper: disjoint written regions never contain a common cell. -/
theorem not_both_inRect (B W : Int) (p q : Patch) (h : denseDisjoint B W p q) :
    ∀ r c : Nat, ¬(inRect p B W r c ∧ inRect q B W r c) := by
  intro r c hcon
  obtain ⟨⟨hp1, hp2, hp3, hp4⟩, ⟨hq1, hq2, hq3, hq4⟩⟩ := hcon
  rcases h with h | h
  · exact absurd ((lt_min hp2 hq2).trans_le (h.trans (max_le hp1 hq1)))
      (lt_irrefl _)
  · exact absurd ((lt_min hp4 hq4).trans_le (h.trans (max_le hp3 hq3)))
      (lt_irrefl _)

/-- Helper: slice-assignments into disjoint regions commute. -/
theorem write2d_comm (A : Nat → Nat → ℚ) (p q : Patch)
    (sp sq : Nat → Nat → ℚ) (B W : Int)
    (h : ∀ r c : Nat, ¬(inRect p B W r c ∧ inRect q B W r c)) :
    write2d (write2d A p sp B W) q sq B W =
      write2d (write2d A q sq B W) p sp B W := by
  funext r c
  by_cases hp : inRect p B W r c <;> by_cases hq : inRect q B W r c
  · exact absurd ⟨hp, hq⟩ (h r c)
  · simp [write2d, hp, hq]
  · simp [write2d, hp, hq]
  · simp [write2d, hp, hq]

/-- Helper: three-axis slice-assignments into disjoint regions commute. -/
theorem write3d_comm (A : Nat → Nat → Nat → ℚ) (p q : Patch)
    (sp sq : Nat → Nat → Nat → ℚ) (B W : Int)
    (h : ∀ r c : Nat, ¬(inRect p B W r c ∧ inRect q B W r c)) :
    write3d (write3d A p sp B W) q sq B W =
      write3d (write3d A q sq B W) p sp B W := by
  funext r d c
  by_cases hp : inRect p B W r c <;> by_cases hq : inRect q B W r c
  · exact absurd ⟨hp, hq⟩ (h r c)
  · simp [write3d, hp, hq]
  · simp [write3d, hp, hq]
  · simp [write3d, hp, hq]

/-- Helper: model-image accumulations always commute (addition). -/
theorem accumModel_comm (M : Nat → Nat → ℚ) (y1 x1 y2 x2 : Int)
    (m1 m2 : ModelImage) :
    accumModel (accumModel M y1 x1 m1) y2 x2 m2 =
      accumModel (accumModel M y2 x2 m2) y1 x1 m1 := by
  funext i j
  unfold accumModel
  split_ifs <;> ring

/-- Helper: one loop step for a pair whose patch is off the image, stated
with the pair's components. -/
theorem bbstep_none (z : Option (Int × Int × Int × Int)) (p : Patch)
    (h : p.xyslice = none) : bbstep z p = z := by
  unfold bbstep
  rw [h]

/-- Helper: a bounding-box step widens the running box. -/
theorem bbstep_some (z : Option (Int × Int × Int × Int)) (p : Patch)
    (xy : Slice × Slice) (h : p.xyslice = some xy) :
    bbstep z p =
      match z with
      | none => some (xy.1.start, xy.1.stop, xy.2.start, xy.2.stop)
      | some (a, b, c, d) =>
        some (min a xy.1.start, max b xy.1.stop, min c xy.2.start,
          max d xy.2.stop) := by
  unfold bbstep
  rw [h]

/-- Helper: bounding-box steps commute. -/
theorem bbstep_comm (z : Option (Int × Int × Int × Int)) (p q : Patch) :
    bbstep (bbstep z p) q = bbstep (bbstep z q) p := by
  cases hp : p.xyslice with
  | none => rw [bbstep_none _ _ hp, bbstep_none _ _ hp]
  | some xyp =>
    cases hq : q.xyslice with
    | none => rw [bbstep_none _ _ hq, bbstep_none _ _ hq]
    | some xyq =>
      rw [bbstep_some _ _ _ hp, bbstep_some _ _ _ hq,
        bbstep_some _ _ _ hq, bbstep_some _ _ _ hp]
      cases z with
      | none =>
        dsimp only
        rw [min_comm xyp.1.start xyq.1.start, max_comm xyp.1.stop xyq.1.stop,
          min_comm xyp.2.start xyq.2.start, max_comm xyp.2.stop xyq.2.stop]
      | some t =>
        obtain ⟨a, b, c, d⟩ := t
        dsimp only
        rw [min_right_comm a xyp.1.start xyq.1.start,
          Max.right_comm b xyp.1.stop xyq.1.stop,
          min_right_comm c xyp.2.start xyq.2.start,
          Max.right_comm d xyp.2.stop xyq.2.stop]

/-- Helper: the bounding-box scan is permutation invariant. -/
theorem bboxFold_perm (ps qs : List Patch) (h : ps.Perm qs) :
    bboxFold ps = bboxFold qs := by
  unfold bboxFold
  exact h.foldl_eq' (fun x _ y _ z => bbstep_comm z x y) none

/-- Helper: loop steps for pairs that never write a common dense cell
commute. -/
theorem applyPatch_comm (B W ys xs : Int) (x y : Patch × PatchResult)
    (h : noWriteOverlap B W x y) (z : BState) :
    applyPatch B W ys xs (applyPatch B W ys xs z x) y =
      applyPatch B W ys xs (applyPatch B W ys xs z y) x := by
  rcases h with hx | hy | hd
  · rw [applyPatch_offimage B W ys xs z x hx,
      applyPatch_offimage B W ys xs (applyPatch B W ys xs z y) x hx]
  · rw [applyPatch_offimage B W ys xs (applyPatch B W ys xs z x) y hy,
      applyPatch_offimage B W ys xs z y hy]
  · have hnb := not_both_inRect B W x.1 y.1 hd
    have hnb' : ∀ r c : Nat, ¬(inRect y.1 B W r c ∧ inRect x.1 B W r c) :=
      fun r c hc => hnb r c ⟨hc.2, hc.1⟩
    apply BState.ext
    · simp only [applyPatch_specflux]
      cases hxx : x.1.xyslice <;> cases hyy : y.1.xyslice <;> dsimp only <;>
        first
          | rfl
          | exact write2d_comm _ _ _ _ _ _ _ hnb
    · simp only [applyPatch_specivar]
      cases hxx : x.1.xyslice <;> cases hyy : y.1.xyslice <;> dsimp only <;>
        first
          | rfl
          | exact write2d_comm _ _ _ _ _ _ _ hnb
    · simp only [applyPatch_Rdiags]
      cases hxx : x.1.xyslice <;> cases hyy : y.1.xyslice <;> dsimp only <;>
        first
          | rfl
          | exact write3d_comm _ _ _ _ _ _ _ hnb
    · simp only [applyPatch_pixmask]
      cases hxx : x.1.xyslice <;> cases hyy : y.1.xyslice <;> dsimp only <;>
        first
          | rfl
          | exact write2d_comm _ _ _ _ _ _ _ hnb
    · simp only [applyPatch_chi2pix]
      cases hxx : x.1.xyslice <;> cases hyy : y.1.xyslice <;> dsimp only <;>
        first
          | rfl
          | exact write2d_comm _ _ _ _ _ _ _ hnb
    · simp only [applyPatch_modelimage]
      cases hxx : x.1.xyslice <;> cases hmx : x.2.modelimage <;>
        cases hyy : y.1.xyslice <;> cases hmy : y.2.modelimage <;>
          dsimp only <;>
          first
            | rfl
            | (split_ifs <;> first | rfl | apply accumModel_comm)

/-- Helper: the pair relation `noWriteOverlap` is symmetric. -/
theorem noWriteOverlap_symm (B W : Int) :
    Symmetric (noWriteOverlap B W) := by
  intro x y h
  rcases h with h | h | h
  · exact Or.inr (Or.inl h)
  · exact Or.inl h
  · rcases h with h | h
    · refine Or.inr (Or.inr (Or.inl ?_))
      rw [min_comm, max_comm]
      exact h
    · refine Or.inr (Or.inr (Or.inr ?_))
      rw [min_comm, max_comm]
      exact h

/-- C4: bundle assembly is order independent: if two per-rank groupings hold
the same multiset of `(patch, result)` pairs (any permutation and any
regrouping), all pairs declare the same bundle-wide parameters, and no two
pairs write a common dense-array cell (as the partitioner tiling
guarantees), then `assemble_bundle_patches` produces identical outputs:
same dense arrays, same model image, and same bounding box. -/
theorem assemble_order_independent (rss1 rss2 : List (List (Patch × PatchResult)))
    (B W D : Int)
    (hperm : rss1.flatten.Perm rss2.flatten)
    (hparams : ∀ pr ∈ rss1.flatten,
      pr.1.bundlesize = B ∧ pr.1.nwave = W ∧ pr.1.ndiag = D)
    (hdisj : rss1.flatten.Pairwise (noWriteOverlap B W)) :
    assemble_bundle_patches rss1 = assemble_bundle_patches rss2 := by
  unfold assemble_bundle_patches
  revert hperm hparams hdisj
  generalize rss1.flatten = l1
  generalize rss2.flatten = l2
  intro hperm hparams hdisj
  cases l1 with
  | nil =>
    rw [hperm.symm.eq_nil]
  | cons a l1' =>
    cases l2 with
    | nil => exact absurd hperm.eq_nil (by simp)
    | cons b l2' =>
      obtain ⟨pa, ra⟩ := a
      obtain ⟨pb, rb⟩ := b
      have hpa := hparams (pa, ra) (List.mem_cons_self _ _)
      have hpb := hparams (pb, rb)
        (hperm.mem_iff.mpr (List.mem_cons_self _ _))
      have ha1 : pa.bundlesize = B := hpa.1
      have ha2 : pa.nwave = W := hpa.2.1
      have ha3 : pa.ndiag = D := hpa.2.2
      have hb1 : pb.bundlesize = B := hpb.1
      have hb2 : pb.nwave = W := hpb.2.1
      have hb3 : pb.ndiag = D := hpb.2.2
      simp only [assembleJoin]
      simp only [ha1, ha2, ha3, hb1, hb2, hb3]
      rw [bboxFold_perm _ _ (hperm.map Prod.fst)]
      have hfold : ∀ (ys xs : Int) (s : BState),
          ((pa, ra) :: l1').foldl (applyPatch B W ys xs) s =
            ((pb, rb) :: l2').foldl (applyPatch B W ys xs) s := by
        intro ys xs s
        refine hperm.foldl_eq' ?_ s
        intro u hu v hv z
        rcases eq_or_ne u v with rfl | huv
        · rfl
        · exact applyPatch_comm B W ys xs u v
            ((hdisj.forall (noWriteOverlap_symm B W)) hu hv huv) z
      simp only [hfold]

/-- Witness for the C4 theorem: swapping two pairs and regrouping them into
different per-rank sublists leaves the assembled bundle unchanged. -/
theorem assemble_order_independent_witness :
    assemble_bundle_patches
        [[(onPatch, constResult 2)], [(onPatch2, constResult 3)]] =
      assemble_bundle_patches
        [[(onPatch2, constResult 3), (onPatch, constResult 2)]] :=
  assemble_order_independent
    [[(onPatch, constResult 2)], [(onPatch2, constResult 3)]]
    [[(onPatch2, constResult 3), (onPatch, constResult 2)]] 25 100 7
    (List.Perm.swap (onPatch2, constResult 3) (onPatch, constResult 2) [])
    (by
      intro pr hpr
      simp only [List.flatten_cons, List.flatten_nil, List.append_nil,
        List.singleton_append, List.mem_cons, List.mem_singleton,
        List.not_mem_nil, or_false] at hpr
      rcases hpr with rfl | rfl
      · exact ⟨rfl, rfl, rfl⟩
      · exact ⟨rfl, rfl, rfl⟩)
    (by
      refine List.Pairwise.cons ?_ (List.pairwise_singleton _ _)
      intro y hy
      simp only [List.append_nil, List.nil_append, List.append_eq,
        List.flatten_cons, List.flatten_nil, List.mem_singleton] at hy
      subst hy
      exact Or.inr (Or.inr (Or.inl (by decide))))

/-- C10: without accelerators the topology planner ignores the
ranks-per-bundle override and, for every communicator, returns no frame
group, the whole worker communicator as the bundle group, bundle-group id 0
and stride 1. -/
theorem decompose_comm_cpu (comm : Option (Nat × Nat)) (deviceCountAvail : Nat)
    (ranks_per_bundle : Option Nat) :
    decompose_comm comm false deviceCountAvail ranks_per_bundle =
      .ok
        { frame_comm := none
          bundle_comm := comm.map (fun sr => List.range sr.1)
          bundle_start := 0
          bundle_step := 1
          device_id := none } := rfl

/-- C7: with accelerators, 4 workers and ranks-per-bundle override 2 (the
divisibility precondition on the effective device count holding), every
worker gets bundle-group id `rank / 2` and stride 2; the bundle groups are
`{0,1}` and `{2,3}` and the frame group joins the two ranks with the same
bundle rank `rank % 2`, in particular `{0,2}` for the bundle-rank-0
members. -/
theorem decompose_comm_4workers_override2 (rank : Nat) (hr : rank < 4)
    (dca : Nat) (hdc : 0 < min 4 dca) (hdvd : 4 % min 4 dca = 0) :
    ∃ res, decompose_comm (some (4, rank)) true dca (some 2) = .ok res ∧
      res.bundle_start = rank / 2 ∧
      res.bundle_step = 2 ∧
      res.bundle_comm = some (if rank / 2 = 0 then [0, 1] else [2, 3]) ∧
      res.frame_comm = some (if rank % 2 = 0 then [0, 2] else [1, 3]) := by
  simp only [decompose_comm]
  rw [if_neg (by omega : ¬min 4 dca = 0),
    if_neg (not_not_intro hdvd)]
  refine ⟨_, rfl, rfl, rfl, ?_, ?_⟩
  · interval_cases rank <;> (dsimp only; decide)
  · interval_cases rank <;> (dsimp only; decide)

/-- Witness for the C7 theorem at rank 1 with 2 available devices. -/
theorem decompose_comm_4workers_override2_witness :
    ∃ res, decompose_comm (some (4, 1)) true 2 (some 2) = .ok res ∧
      res.bundle_start = 1 / 2 ∧
      res.bundle_step = 2 ∧
      res.bundle_comm = some (if 1 / 2 = 0 then [0, 1] else [2, 3]) ∧
      res.frame_comm = some (if 1 % 2 = 0 then [0, 2] else [1, 3]) :=
  decompose_comm_4workers_override2 1 (by decide) 2 (by decide) (by decide)

/-- C8: each configuration divisibility violation makes the preflight check
fail with a message naming the violated constraint, and
`main_gpu_specter` then raises before any extraction; with accelerators, a
worker count not divisible by the effective device count aborts
`decompose_comm` with the assert message before any communicator split. -/
theorem config_divisibility_faults (args : Args) (env : GpuEnv) :
    (args.bundlesize.fmod args.nsubbundles ≠ 0 →
      check_input_options args env =
        (false, "bundlesize (" ++ toString args.bundlesize ++
          ") must be evenly divisible by nsubbundles (" ++
          toString args.nsubbundles ++ ")") ∧
      main_gpu_specter_preflight args env =
        .error ("bundlesize (" ++ toString args.bundlesize ++
          ") must be evenly divisible by nsubbundles (" ++
          toString args.nsubbundles ++ ")")) ∧
    (args.bundlesize.fmod args.nsubbundles = 0 →
      args.nspec.fmod args.bundlesize ≠ 0 →
      check_input_options args env =
        (false, "nspec (" ++ toString args.nspec ++
          ") must be evenly divisible by bundlesize (" ++
          toString args.bundlesize ++ ")") ∧
      main_gpu_specter_preflight args env =
        .error ("nspec (" ++ toString args.nspec ++
          ") must be evenly divisible by bundlesize (" ++
          toString args.bundlesize ++ ")")) ∧
    (args.bundlesize.fmod args.nsubbundles = 0 →
      args.nspec.fmod args.bundlesize = 0 →
      args.specmin.fmod args.bundlesize ≠ 0 →
      check_input_options args env =
        (false, "specmin (" ++ toString args.specmin ++
          ") must begin at a bundle boundary") ∧
      main_gpu_specter_preflight args env =
        .error ("specmin (" ++ toString args.specmin ++
          ") must begin at a bundle boundary")) ∧
    (∀ (size rank deviceCountAvail : Nat) (ranks_per_bundle : Option Nat),
      0 < min size deviceCountAvail →
      size % min size deviceCountAvail ≠ 0 →
      decompose_comm (some (size, rank)) true deviceCountAvail
        ranks_per_bundle =
        .error
          "AssertionError: Number of MPI ranks must be divisible by number of GPUs") := by
  refine ⟨?_, ?_, ?_, ?_⟩
  · intro h1
    have hc : check_input_options args env =
        (false, "bundlesize (" ++ toString args.bundlesize ++
          ") must be evenly divisible by nsubbundles (" ++
          toString args.nsubbundles ++ ")") := by
      unfold check_input_options
      rw [if_pos h1]
    refine ⟨hc, ?_⟩
    unfold main_gpu_specter_preflight
    rw [hc]
    rfl
  · intro h1 h2
    have hc : check_input_options args env =
        (false, "nspec (" ++ toString args.nspec ++
          ") must be evenly divisible by bundlesize (" ++
          toString args.bundlesize ++ ")") := by
      unfold check_input_options
      rw [if_neg (not_not_intro h1), if_pos h2]
    refine ⟨hc, ?_⟩
    unfold main_gpu_specter_preflight
    rw [hc]
    rfl
  · intro h1 h2 h3
    have hc : check_input_options args env =
        (false, "specmin (" ++ toString args.specmin ++
          ") must begin at a bundle boundary") := by
      unfold check_input_options
      rw [if_neg (not_not_intro h1), if_neg (not_not_intro h2), if_pos h3]
    refine ⟨hc, ?_⟩
    unfold main_gpu_specter_preflight
    rw [hc]
    rfl
  · intro size rank dca rpb hdc hrem
    simp only [decompose_comm]
    rw [if_neg (by omega : ¬min size dca = 0), if_pos hrem, if_pos trivial]

/-- Witness for the C8 theorem: bundle size 25 with 4 sub-bundles. -/
theorem config_divisibility_faults_witness :
    check_input_options ⟨25, 4, 500, 0, false, false⟩ ⟨true, true, 1⟩ =
      (false, "bundlesize (" ++ toString (25 : Int) ++
        ") must be evenly divisible by nsubbundles (" ++
        toString (4 : Int) ++ ")") ∧
    main_gpu_specter_preflight ⟨25, 4, 500, 0, false, false⟩ ⟨true, true, 1⟩ =
      .error ("bundlesize (" ++ toString (25 : Int) ++
        ") must be evenly divisible by nsubbundles (" ++
        toString (4 : Int) ++ ")") :=
  (config_divisibility_faults ⟨25, 4, 500, 0, false, false⟩
    ⟨true, true, 1⟩).1 (by decide)

/-- C9: over an arithmetic wavelength grid with non-zero step `dw`, the
frame finalisation divides the stacked flux by the local bin width
`dwave[j]` (the discrete gradient), multiplies the inverse variance by its
square, flags exactly the zero-inverse-variance bins, and multiplying the
converted flux by the bin width recovers the photon-count flux. -/
theorem frame_unit_conversion (specflux specivar : Nat → Nat → ℚ)
    (wave : Nat → ℚ) (n : Nat) (wmin dw : ℚ) (hn : 2 ≤ n)
    (hgrid : ∀ j, wave j = wmin + dw * j) (hdw : dw ≠ 0)
    (i j : Nat) (hj : j < n) :
    npGradient wave n j = dw ∧
    (extract_frame_finalize specflux specivar wave n).specflux i j =
      specflux i j / npGradient wave n j ∧
    (extract_frame_finalize specflux specivar wave n).specivar i j =
      specivar i j * npGradient wave n j ^ 2 ∧
    ((extract_frame_finalize specflux specivar wave n).specmask i j = 1 ↔
      (extract_frame_finalize specflux specivar wave n).specivar i j = 0) ∧
    (extract_frame_finalize specflux specivar wave n).specflux i j *
      npGradient wave n j = specflux i j := by
  have hdwave : npGradient wave n j = dw := by
    unfold npGradient
    by_cases h0 : j = 0
    · rw [if_pos h0, hgrid 1, hgrid 0]
      push_cast
      ring
    · rw [if_neg h0]
      by_cases hlast : j = n - 1
      · rw [if_pos hlast, hgrid (n - 1), hgrid (n - 2)]
        have e1 : ((n - 1 : Nat) : ℚ) = (n : ℚ) - 1 := by
          push_cast [Nat.cast_sub (by omega : 1 ≤ n)]
          ring
        have e2 : ((n - 2 : Nat) : ℚ) = (n : ℚ) - 2 := by
          push_cast [Nat.cast_sub (by omega : 2 ≤ n)]
          ring
        rw [e1, e2]
        ring
      · rw [if_neg hlast, hgrid (j + 1), hgrid (j - 1)]
        have e1 : ((j + 1 : Nat) : ℚ) = (j : ℚ) + 1 := by push_cast; ring
        have e2 : ((j - 1 : Nat) : ℚ) = (j : ℚ) - 1 := by
          push_cast [Nat.cast_sub (by omega : 1 ≤ j)]
          ring
        rw [e1, e2]
        ring
  refine ⟨hdwave, rfl, rfl, ?_, ?_⟩
  · show (if specivar i j * npGradient wave n j ^ 2 = 0 then (1 : Int) else 0)
      = 1 ↔ specivar i j * npGradient wave n j ^ 2 = 0
    split_ifs with hz
    · simp [hz]
    · simp [hz]
  · show specflux i j / npGradient wave n j * npGradient wave n j =
      specflux i j
    rw [hdwave]
    exact div_mul_cancel₀ _ hdw

/-- Witness for the C9 theorem on the grid `wave j = 5 + 2j` with 3 bins. -/
theorem frame_unit_conversion_witness :
    npGradient (fun j => 5 + 2 * j) 3 1 = 2 ∧
    (extract_frame_finalize (fun _ _ => 6) (fun _ _ => 4)
        (fun j => 5 + 2 * j) 3).specflux 0 1 =
      6 / npGradient (fun j => 5 + 2 * j) 3 1 ∧
    (extract_frame_finalize (fun _ _ => 6) (fun _ _ => 4)
        (fun j => 5 + 2 * j) 3).specivar 0 1 =
      4 * npGradient (fun j => 5 + 2 * j) 3 1 ^ 2 ∧
    ((extract_frame_finalize (fun _ _ => 6) (fun _ _ => 4)
        (fun j => 5 + 2 * j) 3).specmask 0 1 = 1 ↔
      (extract_frame_finalize (fun _ _ => 6) (fun _ _ => 4)
        (fun j => 5 + 2 * j) 3).specivar 0 1 = 0) ∧
    (extract_frame_finalize (fun _ _ => 6) (fun _ _ => 4)
        (fun j => 5 + 2 * j) 3).specflux 0 1 *
      npGradient (fun j => 5 + 2 * j) 3 1 = 6 :=
  frame_unit_conversion (fun _ _ => 6) (fun _ _ => 4) (fun j => 5 + 2 * j) 3
    5 2 (by norm_num) (fun j => rfl) (by norm_num) 0 1 (by norm_num)

/-- Witness for the C2 theorem: the DESI-like bundle (25 spectra, 5
sub-bundles, 100 wavelength bins tiled in steps of 30) covers cell
`(13, 95)` exactly once. -/
theorem bundle_patches_tile_exactly_once_witness :
    ((extract_bundle_patches 0 ((25 : Nat) : Int) ((5 : Nat) : Int)
        ((100 : Nat) : Int) ((30 : Nat) : Int) 10 7).countP
      (fun p => decide (coversCell p 13 95))) = 1 :=
  bundle_patches_tile_exactly_once 0 10 7 25 5 30 100 (by decide) (by decide)
    (by decide) 13 95 (by decide) (by decide)

end GpuSpecter
